import Mathlib

/-!
Verification of the gopherbot persistent-memory subsystem (the "Brain").

This file gives a shallow embedding of the brain coordinator found in the
`bot` package: `getDatum`, `storeDatum`, `replyToWaiter`, the `runBrain`
select loop (checkOutBytes / checkInBytes / updateBytes / processMemories
tick), the short-term memory map with its sweep, and the `Robot` Datum API
facade (`CheckoutDatum`, `CheckinDatum`, `UpdateDatum`, internal `update`).

Modelling conventions:
* Byte blobs are `List Nat`; the storage provider is an in-memory
  association list.  Every call to the provider `Store` is additionally
  recorded in `Storage.storeLog`, so "Store is not called" is expressible.
* The 8-random-byte lock-token generator is modelled by an explicit
  counter: the n-th token minted is `freshToken n`, a non-empty string,
  mirroring the fact that real tokens are 16 hex chars and never empty.
* Encryption is a pair of functions in `CryptoEnv`; `encrypt`/`decrypt`
  may fail (`Option`), mirroring the fallible Go functions.
* Goroutine reply channels are modelled by returning the list of replies a
  coordinator step emits, tagged with the numeric id of the checkout
  request they answer.
-/

namespace Gopherbot

/-- Result codes returned by brain operations (Go type `RetVal`); only the
constructors the brain subsystem uses are modelled. -/
inductive RetVal where
  | Ok
  | InvalidDatumKey
  | BrainFailed
  | DatumNotFound
  | DatumLockExpired
  | DataFormatError
  deriving DecidableEq, Repr

/-- Byte blobs stored by the brain. -/
abbrev Blob := List Nat

/-- Lock-record aging states (Go `memState`: `newMemory`, `seen`,
`available`). -/
inductive MemState where
  | newMemory
  | seen
  | available
  deriving DecidableEq, Repr

/-- An exclusive/read checkout request (Go `checkOutRequest`); the Go reply
channel is modelled by the numeric `reqId` tag replies carry. -/
structure checkOutRequest where
  reqId : Nat
  key : String
  rw : Bool
  deriving DecidableEq, Repr

/-- A check-in request (Go `checkInRequest`). -/
structure checkInRequest where
  key : String
  token : String
  deriving DecidableEq, Repr

/-- An update request (Go `updateRequest`, minus the reply channel). -/
structure updateRequest where
  key : String
  token : String
  datum : Blob
  deriving DecidableEq, Repr

/-- Reply to a checkout request (Go `checkOutReply`); `exs` is the Go
field `exists`. -/
structure checkOutReply where
  token : String
  bytes : Option Blob
  exs : Bool
  retval : RetVal
  deriving DecidableEq, Repr

/-- Per-key lock record (Go `memstatus`): aging state, current lock token,
FIFO waiter queue. -/
structure memstatus where
  state : MemState
  token : String
  waiters : List checkOutRequest
  deriving DecidableEq, Repr

/-- Association-list lookup, modelling Go map indexing. -/
def alookup {α β : Type} [DecidableEq α] (k : α) : List (α × β) → Option β
  | [] => none
  | (k1, v) :: rest => if k1 = k then some v else alookup k rest

/-- Association-list overwrite-insert, modelling Go map assignment. -/
def ainsert {α β : Type} [DecidableEq α] (k : α) (v : β) :
    List (α × β) → List (α × β)
  | [] => [(k, v)]
  | (k1, v1) :: rest =>
      if k1 = k then (k, v) :: rest else (k1, v1) :: ainsert k v rest

/-- Association-list removal, modelling Go `delete`. -/
def aerase {α β : Type} [DecidableEq α] (k : α) :
    List (α × β) → List (α × β)
  | [] => []
  | (k1, v1) :: rest => if k1 = k then rest else (k1, v1) :: aerase k rest

/-- Character class `\w` of the Go key regexp. -/
def isWordChar (c : Char) : Bool := c.isAlphanum || c = '_'

/-- Go `keyRe.MatchString(k)` for `keyRe = [\w:]+`: true iff the string
contains at least one word character or colon. -/
def keyMatches (k : String) : Bool := k.data.any (fun c => isWordChar c || c = ':')

/-- Go `strings.ContainsRune(key, ':')`. -/
def containsColon (k : String) : Bool := k.data.any (fun c => c = ':')

/-- The n-th lock token minted by the model's deterministic stand-in for
the 8-random-byte hex generator; always a non-empty string, as real
tokens are 16 hex characters. -/
def freshToken (n : Nat) : String := String.mk (List.replicate (n + 1) 't')

/-- Well-known storage key of the wrapped "real" encryption key. -/
def botEncryptionKey : String := "bot:encryptionKey"

/-- Process-wide encryption configuration and the injected provider
functions visible to `getDatum`/`storeDatum`. -/
structure CryptoEnv where
  hasBrain : Bool
  encryptBrain : Bool
  initialized : Bool
  initializing : Bool
  encrypt : Blob → Option Blob
  decrypt : Blob → Option Blob

/-- The storage provider state: the stored key/blob map plus a log of
every provider `Store` call (most recent first). -/
structure Storage where
  data : List (String × Blob)
  storeLog : List (String × Blob)
  deriving DecidableEq, Repr

/-- Result quadruple of `getDatum` (token, databytes, exists, retval). -/
structure GetResult where
  token : String
  databytes : Option Blob
  exs : Bool
  ret : RetVal
  deriving DecidableEq, Repr

/-- Conversion of a `getDatum` result into the reply sent on a checkout
reply channel. -/
def GetResult.toReply (g : GetResult) : checkOutReply :=
  ⟨g.token, g.databytes, g.exs, g.ret⟩

/-- Go `storeDatum`: optionally encrypts, then calls the provider `Store`.
Returns the result code and the new storage state. -/
def storeDatum (env : CryptoEnv) (stg : Storage) (dkey : String) (datum : Blob) :
    RetVal × Storage :=
  if !env.hasBrain then (RetVal.BrainFailed, stg)
  else if env.encryptBrain then
    if !env.initialized && !(env.initializing && dkey = botEncryptionKey) then
      (RetVal.BrainFailed, stg)
    else
      match env.encrypt datum with
      | none => (RetVal.BrainFailed, stg)
      | some enc =>
          (RetVal.Ok, ⟨ainsert dkey enc stg.data, (dkey, enc) :: stg.storeLog⟩)
  else (RetVal.Ok, ⟨ainsert dkey datum stg.data, (dkey, datum) :: stg.storeLog⟩)

/-- Go `getDatum`: validates the key, mints a lock token when `rw`,
retrieves from the provider and optionally decrypts.  A failed decrypt of
an ordinary datum with encryption initialized returns the raw bytes and
immediately re-encrypts them via `storeDatum`.  Returns the result, the
(possibly updated) storage and the new token counter. -/
def getDatum (env : CryptoEnv) (stg : Storage) (ctr : Nat) (dkey : String)
    (rw : Bool) : GetResult × Storage × Nat :=
  if !keyMatches dkey then (⟨"", none, false, RetVal.InvalidDatumKey⟩, stg, ctr)
  else if !env.hasBrain then (⟨"", none, false, RetVal.BrainFailed⟩, stg, ctr)
  else
    let token : String := if rw then freshToken ctr else ""
    let ctr1 : Nat := if rw then ctr + 1 else ctr
    match alookup dkey stg.data with
    | none => (⟨token, none, false, RetVal.Ok⟩, stg, ctr1)
    | some db =>
      if env.encryptBrain then
        if env.initializing then
          if dkey ≠ botEncryptionKey then
            (⟨"", none, false, RetVal.BrainFailed⟩, stg, ctr1)
          else
            match env.decrypt db with
            | none => (⟨"", none, false, RetVal.BrainFailed⟩, stg, ctr1)
            | some dec => (⟨token, some dec, true, RetVal.Ok⟩, stg, ctr1)
        else if env.initialized then
          match env.decrypt db with
          | none => (⟨token, some db, true, RetVal.Ok⟩, (storeDatum env stg dkey db).2, ctr1)
          | some dec => (⟨token, some dec, true, RetVal.Ok⟩, stg, ctr1)
        else (⟨"", none, false, RetVal.BrainFailed⟩, stg, ctr1)
      else (⟨token, some db, true, RetVal.Ok⟩, stg, ctr1)

/-- State owned by the single `runBrain` coordinator goroutine: the lock
table `memories`, the storage provider state and the token counter. -/
structure BrainState where
  memories : List (String × memstatus)
  stg : Storage
  ctr : Nat
  deriving DecidableEq, Repr

/-- Go `replyToWaiter`: pop the head waiter, fetch fresh data read-write,
put the record in state `newMemory` with the freshly minted token, and
reply to the popped waiter.  (In the source it is only called with a
non-empty queue; the empty case is a vacuous no-op.) -/
def replyToWaiter (env : CryptoEnv) (stg : Storage) (ctr : Nat) (m : memstatus) :
    memstatus × Storage × Nat × List (Nat × checkOutReply) :=
  match m.waiters with
  | [] => (m, stg, ctr, [])
  | creq :: rest =>
      let r := getDatum env stg ctr creq.key true
      (⟨MemState.newMemory, r.1.token, rest⟩, r.2.1, r.2.2,
        [(creq.reqId, r.1.toReply)])

/-- The `checkOutBytes` case of the `runBrain` loop. -/
def handleCheckOut (env : CryptoEnv) (s : BrainState) (creq : checkOutRequest) :
    BrainState × List (Nat × checkOutReply) :=
  match alookup creq.key s.memories with
  | none =>
      let r := getDatum env s.stg s.ctr creq.key creq.rw
      if r.1.ret ≠ RetVal.Ok then
        (⟨s.memories, r.2.1, r.2.2⟩, [(creq.reqId, r.1.toReply)])
      else if creq.rw then
        (⟨ainsert creq.key ⟨MemState.newMemory, r.1.token, []⟩ s.memories,
          r.2.1, r.2.2⟩, [(creq.reqId, r.1.toReply)])
      else
        (⟨s.memories, r.2.1, r.2.2⟩, [(creq.reqId, r.1.toReply)])
  | some m =>
      if !creq.rw then
        let r := getDatum env s.stg s.ctr creq.key creq.rw
        (⟨s.memories, r.2.1, r.2.2⟩, [(creq.reqId, r.1.toReply)])
      else if m.state = MemState.available then
        let r := getDatum env s.stg s.ctr creq.key creq.rw
        (⟨ainsert creq.key { m with state := MemState.newMemory, token := r.1.token } s.memories,
          r.2.1, r.2.2⟩, [(creq.reqId, r.1.toReply)])
      else
        (⟨ainsert creq.key { m with waiters := m.waiters ++ [creq] } s.memories,
          s.stg, s.ctr⟩, [])

/-- The `checkInBytes` case of the `runBrain` loop: silent no-op when the
record is absent or the token is stale; otherwise serve the head waiter or
delete the record. -/
def handleCheckIn (env : CryptoEnv) (s : BrainState) (ci : checkInRequest) :
    BrainState × List (Nat × checkOutReply) :=
  match alookup ci.key s.memories with
  | none => (s, [])
  | some m =>
      if ci.token ≠ m.token then (s, [])
      else if m.waiters.isEmpty then
        (⟨aerase ci.key s.memories, s.stg, s.ctr⟩, [])
      else
        let r := replyToWaiter env s.stg s.ctr m
        (⟨ainsert ci.key r.1 s.memories, r.2.1, r.2.2.1⟩, r.2.2.2)

/-- The `updateBytes` case of the `runBrain` loop.  The middle component is
the result code sent back on the updater's own reply channel. -/
def handleUpdate (env : CryptoEnv) (s : BrainState) (ur : updateRequest) :
    BrainState × Option RetVal × List (Nat × checkOutReply) :=
  match alookup ur.key s.memories with
  | none => (s, some RetVal.DatumNotFound, [])
  | some m =>
      if ur.token ≠ m.token then (s, some RetVal.DatumLockExpired, [])
      else
        let sd := storeDatum env s.stg ur.key ur.datum
        if m.waiters.isEmpty then
          (⟨aerase ur.key s.memories, sd.2, s.ctr⟩, some sd.1, [])
        else
          let r := replyToWaiter env sd.2 s.ctr m
          (⟨ainsert ur.key r.1 s.memories, r.2.1, r.2.2.1⟩, some sd.1, r.2.2.2)

/-- Advancement of one lock record on a `processMemories` aging tick:
`newMemory → seen`; `seen` with waiters serves the head waiter; `seen`
without waiters moves to `available`. -/
def tickRecord (env : CryptoEnv) (stg : Storage) (ctr : Nat) (m : memstatus) :
    memstatus × Storage × Nat × List (Nat × checkOutReply) :=
  match m.state with
  | MemState.newMemory => ({ m with state := MemState.seen }, stg, ctr, [])
  | MemState.seen =>
      if m.waiters.isEmpty then ({ m with state := MemState.available }, stg, ctr, [])
      else replyToWaiter env stg ctr m
  | MemState.available => (m, stg, ctr, [])

/-- The lock-record half of the `processMemories` tick: advance every
record with `tickRecord`, threading storage and token counter. -/
def tickMems (env : CryptoEnv) (stg : Storage) (ctr : Nat) :
    List (String × memstatus) →
      List (String × memstatus) × Storage × Nat × List (Nat × checkOutReply)
  | [] => ([], stg, ctr, [])
  | (k, m) :: rest =>
      let r := tickRecord env stg ctr m
      let rr := tickMems env r.2.1 r.2.2.1 rest
      ((k, r.1) :: rr.1, rr.2.1, rr.2.2.1, r.2.2.2 ++ rr.2.2.2)

/-- One `processMemories` aging tick over the whole coordinator state. -/
def processTick (env : CryptoEnv) (s : BrainState) :
    BrainState × List (Nat × checkOutReply) :=
  let r := tickMems env s.stg s.ctr s.memories
  (⟨r.1, r.2.1, r.2.2.1⟩, r.2.2.2)

/-- A short-term memory entry (Go `shortTermMemory`); time is in seconds. -/
structure shortTermMemory where
  memory : String
  timestamp : Nat
  deriving DecidableEq, Repr

/-- Index of a short-term memory (Go `memoryContext`). -/
structure memoryContext where
  key : String
  user : String
  channel : String
  deriving DecidableEq, Repr

/-- The short-term memory map. -/
abbrev STMem := List (memoryContext × shortTermMemory)

/-- Go `shortTermDuration = 7 * time.Minute`, in seconds. -/
def shortTermDuration : Nat := 420

/-- Go `Robot.Remember`: unconditionally overwrite the entry for the
(key, user, channel) triple with the value and the current time. -/
def remember (stm : STMem) (now : Nat) (key user channel value : String) : STMem :=
  ainsert ⟨key, user, channel⟩ ⟨value, now⟩ stm

/-- Go `Robot.Recall`: the stored value for the triple, or "" if absent. -/
def recallMemory (stm : STMem) (key user channel : String) : String :=
  match alookup (⟨key, user, channel⟩ : memoryContext) stm with
  | none => ""
  | some mem => mem.memory

/-- The short-term-memory half of the `processMemories` tick: delete every
entry strictly older than `shortTermDuration`. -/
def sweep (stm : STMem) (now : Nat) : STMem :=
  stm.filter (fun kv => !(decide (shortTermDuration < now - kv.2.timestamp)))

/-- Observation of one Datum API facade call: the request forwarded to the
coordinator, if any, and the result code produced without consulting the
coordinator, if any.  (`Robot.CheckinDatum` returns no value in the
source, so its `immediate` component is `none` in every branch.) -/
structure FacadeOut (α : Type) where
  sent : Option α
  immediate : Option RetVal
  deriving DecidableEq, Repr

/-- Namespace prefixing done by the three facade operations: the task
namespace, then the pipeline namespace extension when set, then the key. -/
def nsKey (ns ext key : String) : String :=
  if ext.length > 0 then ns ++ ":" ++ ext ++ ":" ++ key else ns ++ ":" ++ key

/-- Go internal `update`: an empty lock token short-circuits to `Ok`
without sending anything; otherwise the request goes to the coordinator. -/
def update (d lt : String) (datum : Blob) :
    Option updateRequest × Option RetVal :=
  if lt = "" then (none, some RetVal.Ok)
  else (some ⟨d, lt, datum⟩, none)

/-- Go internal `checkinDatum`: an empty token sends nothing; otherwise a
check-in request goes to the coordinator. -/
def checkinDatum (key locktoken : String) : Option checkInRequest :=
  if locktoken = "" then none else some ⟨key, locktoken⟩

/-- Go internal `checkout` (up to the coordinator boundary): re-validates
the full key against the key regexp, then sends a checkout request. -/
def checkoutSend (d : String) (rw : Bool) : FacadeOut (String × Bool) :=
  if !keyMatches d then ⟨none, some RetVal.InvalidDatumKey⟩
  else ⟨some (d, rw), none⟩

/-- Go `Robot.CheckoutDatum` up to the coordinator boundary: reject keys
containing the reserved separator, otherwise prefix with namespace (and
extension) and forward. -/
def robotCheckoutDatum (ns ext key : String) (rw : Bool) :
    FacadeOut (String × Bool) :=
  if containsColon key then ⟨none, some RetVal.InvalidDatumKey⟩
  else checkoutSend (nsKey ns ext key) rw

/-- Go `Robot.CheckinDatum` up to the coordinator boundary: silently
returns on an empty token or a key containing the separator (it has no
return value to report an error with), otherwise prefixes and forwards. -/
def robotCheckinDatum (ns ext key locktoken : String) :
    FacadeOut checkInRequest :=
  if locktoken = "" then ⟨none, none⟩
  else if containsColon key then ⟨none, none⟩
  else ⟨checkinDatum (nsKey ns ext key) locktoken, none⟩

/-- Go `Robot.UpdateDatum` up to the coordinator boundary: reject keys
containing the separator with an invalid-key error, otherwise prefix and
call `update` (marshalling is modelled as the identity on blobs). -/
def robotUpdateDatum (ns ext key locktoken : String) (datum : Blob) :
    FacadeOut updateRequest :=
  if containsColon key then ⟨none, some RetVal.InvalidDatumKey⟩
  else
    let r := update (nsKey ns ext key) locktoken datum
    ⟨r.1, r.2⟩

/-- Concrete environment: a configured brain with encryption disabled. -/
def envPlain : CryptoEnv := ⟨true, false, false, false, fun b => some b, fun b => some b⟩

/-- Concrete environment: encryption active and initialized, where
`encrypt` prepends a 0 byte and `decrypt` only accepts 0-headed blobs. -/
def envReencrypt : CryptoEnv :=
  ⟨true, true, true, false, fun b => some (0 :: b),
    fun b => match b with
      | 0 :: r => some r
      | _ => none⟩

/-- Concrete storage holding one blob under key "k". -/
def stgW : Storage := ⟨[("k", [1])], []⟩

/-- Concrete exclusive checkout request used as a queued waiter. -/
def wreq : checkOutRequest := ⟨5, "k", true⟩

/-- Concrete lock record: state `newMemory`, no waiters. -/
def memNew : memstatus := ⟨MemState.newMemory, "tk", []⟩

/-- Concrete lock record: state `seen`, no waiters. -/
def memSeen : memstatus := ⟨MemState.seen, "tk", []⟩

/-- Concrete lock record: state `seen`, one queued waiter. -/
def memSeenW : memstatus := ⟨MemState.seen, "tk", [wreq]⟩

/-- Concrete coordinator state: key "k" locked, no waiters. -/
def sW : BrainState := ⟨[("k", memNew)], stgW, 0⟩

/-- Concrete coordinator state: key "k" locked with one queued waiter. -/
def sW2 : BrainState := ⟨[("k", ⟨MemState.newMemory, "tk", [wreq]⟩)], stgW, 0⟩

/-- Concrete short-term memory context. -/
def ctxW : memoryContext := ⟨"ka", "u", "ch"⟩

/-- Concrete short-term memory map with one entry written at time 10. -/
def stmW : STMem := [(ctxW, ⟨"v0", 10⟩)]

theorem alookup_ainsert_self {α β : Type} [DecidableEq α] (k : α) (v : β)
    (l : List (α × β)) : alookup k (ainsert k v l) = some v := by
  induction l with
  | nil => simp [ainsert, alookup]
  | cons hd t ih =>
      obtain ⟨k1, v1⟩ := hd
      by_cases hk : k1 = k
      · simp [ainsert, alookup, hk]
      · simp [ainsert, alookup, hk, ih]

theorem alookup_filter {α β : Type} [DecidableEq α] (p : α × β → Bool)
    (k : α) (v : β) (l : List (α × β))
    (hl : alookup k l = some v) (hp : p (k, v) = true) :
    alookup k (l.filter p) = some v := by
  induction l with
  | nil => simp [alookup] at hl
  | cons hd t ih =>
      obtain ⟨k1, v1⟩ := hd
      by_cases hk : k1 = k
      · subst hk
        simp [alookup] at hl
        subst hl
        simp [List.filter, hp, alookup]
      · simp [alookup, hk] at hl
        cases hpc : p (k1, v1) <;> simp [List.filter, hpc, alookup, hk, ih hl]

theorem keyMatches_colon_append (a b : String) :
    keyMatches (a ++ ":" ++ b) = true := by
  simp [keyMatches, String.data_append, List.any_append]

theorem keyMatches_nsKey (ns ext key : String) :
    keyMatches (nsKey ns ext key) = true := by
  unfold nsKey
  split
  · have h := keyMatches_colon_append ns (ext ++ ":" ++ key)
    simpa [String.append_assoc] using h
  · exact keyMatches_colon_append ns key

theorem getDatum_ro_token (env : CryptoEnv) (stg : Storage) (ctr : Nat)
    (k : String) : (getDatum env stg ctr k false).1.token = "" := by
  unfold getDatum
  repeat' (first | rfl | split | exact absurd (by assumption) Bool.false_ne_true)

theorem getDatum_plain_rw_token (env : CryptoEnv) (stg : Storage) (ctr : Nat)
    (k : String) (hb : env.hasBrain = true) (he : env.encryptBrain = false)
    (hk : keyMatches k = true) :
    (getDatum env stg ctr k true).1.token = freshToken ctr := by
  unfold getDatum
  rw [hk, hb]
  simp only [Bool.not_true, Bool.false_eq_true, if_false, he]
  cases alookup k stg.data <;> simp

/-- C2: an Update whose token does not match the current token of the
key's lock record returns the stale-lock error `DatumLockExpired` and
leaves the whole coordinator state — the stored value, the provider
store log (so `Store` is not called), the lock record, its token and its
waiter queue — unchanged, and emits no waiter replies. -/
theorem update_stale_token_rejected (env : CryptoEnv) (s : BrainState)
    (ur : updateRequest) (m : memstatus)
    (hm : alookup ur.key s.memories = some m) (hne : ur.token ≠ m.token) :
    handleUpdate env s ur = (s, some RetVal.DatumLockExpired, []) := by
  simp [handleUpdate, hm, hne]

theorem update_stale_token_rejected_witness :
    handleUpdate envPlain sW ⟨"k", "bad", [9]⟩ =
      (sW, some RetVal.DatumLockExpired, []) :=
  update_stale_token_rejected envPlain sW ⟨"k", "bad", [9]⟩ memNew (by decide)
    (by decide)

/-- C3: a CheckIn for a key with no lock record, or with a token that does
not match the record's current token, is a silent no-op: the lock table
(hence the record, its state, its token and its waiter queue) is
unchanged, no replies are emitted, and no error is reported (the
operation has no result value at all). -/
theorem checkin_stale_noop (env : CryptoEnv) (s : BrainState)
    (ci : checkInRequest)
    (h : alookup ci.key s.memories = none ∨
      ∃ m, alookup ci.key s.memories = some m ∧ ci.token ≠ m.token) :
    handleCheckIn env s ci = (s, []) := by
  rcases h with h | ⟨m, hm, hne⟩
  · simp [handleCheckIn, h]
  · simp [handleCheckIn, hm, hne]

theorem checkin_stale_noop_witness :
    handleCheckIn envPlain sW ⟨"k", "stale"⟩ = (sW, []) :=
  checkin_stale_noop envPlain sW ⟨"k", "stale"⟩
    (Or.inr ⟨memNew, by decide, by decide⟩)

/-- C10: an update presented with the empty lock token short-circuits to
`Ok`: no request is sent to the coordinator (so the stored value and the
lock table are untouched), yet the caller observes success; likewise
through the `Robot.UpdateDatum` facade for any valid key. -/
theorem update_empty_token_ok (d : String) (datum : Blob) :
    update d "" datum = (none, some RetVal.Ok) ∧
    ∀ ns ext key : String, containsColon key = false →
      robotUpdateDatum ns ext key "" datum = ⟨none, some RetVal.Ok⟩ := by
  refine ⟨by simp [update], ?_⟩
  intro ns ext key h
  simp [robotUpdateDatum, h, update]

theorem update_empty_token_ok_witness :
    update "anykey" "" [1, 2] = (none, some RetVal.Ok) ∧
    robotUpdateDatum "ns" "" "key" "" [1, 2] = (⟨none, some RetVal.Ok⟩ : FacadeOut updateRequest) :=
  ⟨(update_empty_token_ok "anykey" [1, 2]).1,
   (update_empty_token_ok "anykey" [1, 2]).2 "ns" "" "key" (by decide)⟩

/-- C6: a non-exclusive checkout is answered immediately (exactly one
reply, never enqueued as a waiter), carries the empty lock token, and the
resulting coordinator state and reply are the same function of storage
alone whatever the lock table holds: the lock table is identical before
and after, even while the key is exclusively locked. -/
theorem readonly_checkout_bypasses_locktable (env : CryptoEnv)
    (s : BrainState) (creq : checkOutRequest) (hro : creq.rw = false) :
    handleCheckOut env s creq =
      (⟨s.memories, (getDatum env s.stg s.ctr creq.key false).2.1,
        (getDatum env s.stg s.ctr creq.key false).2.2⟩,
       [(creq.reqId, (getDatum env s.stg s.ctr creq.key false).1.toReply)]) ∧
    (getDatum env s.stg s.ctr creq.key false).1.token = "" := by
  refine ⟨?_, getDatum_ro_token env s.stg s.ctr creq.key⟩
  cases hl : alookup creq.key s.memories with
  | none => simp [handleCheckOut, hl, hro]
  | some m => simp [handleCheckOut, hl, hro]

theorem readonly_checkout_bypasses_locktable_witness :
    handleCheckOut envPlain sW ⟨3, "k", false⟩ =
      (⟨sW.memories, (getDatum envPlain sW.stg sW.ctr "k" false).2.1,
        (getDatum envPlain sW.stg sW.ctr "k" false).2.2⟩,
       [(3, (getDatum envPlain sW.stg sW.ctr "k" false).1.toReply)]) ∧
    (getDatum envPlain sW.stg sW.ctr "k" false).1.token = "" :=
  readonly_checkout_bypasses_locktable envPlain sW ⟨3, "k", false⟩ rfl

/-- C5: on an aging tick each lock record advances exactly as specified:
`newMemory` becomes `seen`; `seen` with a non-empty waiter queue serves
the head waiter with the CheckIn mechanics (fresh read-write fetch, new
token, state `newMemory`); `seen` with no waiters becomes `available`;
and the tick processes every record of the table this way. -/
theorem tick_advances_records (env : CryptoEnv) (stg : Storage) (ctr : Nat)
    (k : String) (m : memstatus) (rest : List (String × memstatus)) :
    (m.state = MemState.newMemory →
      tickRecord env stg ctr m = ({ m with state := MemState.seen }, stg, ctr, [])) ∧
    (m.state = MemState.seen → m.waiters = [] →
      tickRecord env stg ctr m = ({ m with state := MemState.available }, stg, ctr, [])) ∧
    (∀ w ws, m.state = MemState.seen → m.waiters = w :: ws →
      tickRecord env stg ctr m =
        (⟨MemState.newMemory, (getDatum env stg ctr w.key true).1.token, ws⟩,
         (getDatum env stg ctr w.key true).2.1,
         (getDatum env stg ctr w.key true).2.2,
         [(w.reqId, (getDatum env stg ctr w.key true).1.toReply)])) ∧
    tickMems env stg ctr ((k, m) :: rest) =
      ((k, (tickRecord env stg ctr m).1) ::
          (tickMems env (tickRecord env stg ctr m).2.1
            (tickRecord env stg ctr m).2.2.1 rest).1,
        (tickMems env (tickRecord env stg ctr m).2.1
          (tickRecord env stg ctr m).2.2.1 rest).2.1,
        (tickMems env (tickRecord env stg ctr m).2.1
          (tickRecord env stg ctr m).2.2.1 rest).2.2.1,
        (tickRecord env stg ctr m).2.2.2 ++
          (tickMems env (tickRecord env stg ctr m).2.1
            (tickRecord env stg ctr m).2.2.1 rest).2.2.2) := by
  refine ⟨?_, ?_, ?_, ?_⟩
  · intro hst; simp [tickRecord, hst]
  · intro hst hw; simp [tickRecord, hst, hw]
  · intro w ws hst hw; simp [tickRecord, hst, hw, replyToWaiter]
  · simp [tickMems]

theorem tick_advances_records_witness :
    tickRecord envPlain stgW 0 memNew =
      ({ memNew with state := MemState.seen }, stgW, 0, []) ∧
    tickRecord envPlain stgW 0 memSeen =
      ({ memSeen with state := MemState.available }, stgW, 0, []) ∧
    tickRecord envPlain stgW 0 memSeenW =
      (⟨MemState.newMemory, (getDatum envPlain stgW 0 "k" true).1.token, []⟩,
       (getDatum envPlain stgW 0 "k" true).2.1,
       (getDatum envPlain stgW 0 "k" true).2.2,
       [(5, (getDatum envPlain stgW 0 "k" true).1.toReply)]) :=
  ⟨(tick_advances_records envPlain stgW 0 "k" memNew []).1 rfl,
   (tick_advances_records envPlain stgW 0 "k" memSeen []).2.1 rfl rfl,
   (tick_advances_records envPlain stgW 0 "k" memSeenW []).2.2.1 wreq [] rfl rfl⟩

/-- C4: with a matching token, a CheckIn — and a successful Update — with
at least one queued waiter pops exactly the head of the FIFO queue, does
a fresh read-write storage fetch, replies to that waiter, and leaves the
record in state `newMemory` with the freshly minted token and the
remaining queue; with an empty queue the record is deleted instead.  In a
plain configuration the token handed to the served waiter is exactly the
next fresh token of the supply. -/
theorem checkin_serves_waiters_fifo (env : CryptoEnv) (s : BrainState)
    (key : String) (m : memstatus) (hm : alookup key s.memories = some m) :
    (∀ w rest, m.waiters = w :: rest →
      handleCheckIn env s ⟨key, m.token⟩ =
        (⟨ainsert key ⟨MemState.newMemory,
            (getDatum env s.stg s.ctr w.key true).1.token, rest⟩ s.memories,
          (getDatum env s.stg s.ctr w.key true).2.1,
          (getDatum env s.stg s.ctr w.key true).2.2⟩,
         [(w.reqId, (getDatum env s.stg s.ctr w.key true).1.toReply)])) ∧
    (m.waiters = [] →
      handleCheckIn env s ⟨key, m.token⟩ =
        (⟨aerase key s.memories, s.stg, s.ctr⟩, [])) ∧
    (∀ datum w rest, m.waiters = w :: rest →
      handleUpdate env s ⟨key, m.token, datum⟩ =
        (⟨ainsert key ⟨MemState.newMemory,
            (getDatum env (storeDatum env s.stg key datum).2 s.ctr w.key true).1.token,
            rest⟩ s.memories,
          (getDatum env (storeDatum env s.stg key datum).2 s.ctr w.key true).2.1,
          (getDatum env (storeDatum env s.stg key datum).2 s.ctr w.key true).2.2⟩,
         some (storeDatum env s.stg key datum).1,
         [(w.reqId,
           (getDatum env (storeDatum env s.stg key datum).2 s.ctr w.key true).1.toReply)])) ∧
    (∀ datum, m.waiters = [] →
      handleUpdate env s ⟨key, m.token, datum⟩ =
        (⟨aerase key s.memories, (storeDatum env s.stg key datum).2, s.ctr⟩,
         some (storeDatum env s.stg key datum).1, [])) ∧
    (∀ wk : String, env.hasBrain = true → env.encryptBrain = false →
      keyMatches wk = true →
      (getDatum env s.stg s.ctr wk true).1.token = freshToken s.ctr) := by
  refine ⟨?_, ?_, ?_, ?_, ?_⟩
  · intro w rest hw
    simp [handleCheckIn, hm, hw, replyToWaiter]
  · intro hw
    simp [handleCheckIn, hm, hw]
  · intro datum w rest hw
    simp [handleUpdate, hm, hw, replyToWaiter]
  · intro datum hw
    simp [handleUpdate, hm, hw]
  · intro wk hb he hk
    exact getDatum_plain_rw_token env s.stg s.ctr wk hb he hk

theorem checkin_serves_waiters_fifo_witness :
    handleCheckIn envPlain sW2 ⟨"k", "tk"⟩ =
      (⟨ainsert "k" ⟨MemState.newMemory,
          (getDatum envPlain sW2.stg sW2.ctr "k" true).1.token, []⟩ sW2.memories,
        (getDatum envPlain sW2.stg sW2.ctr "k" true).2.1,
        (getDatum envPlain sW2.stg sW2.ctr "k" true).2.2⟩,
       [(5, (getDatum envPlain sW2.stg sW2.ctr "k" true).1.toReply)]) ∧
    handleCheckIn envPlain sW ⟨"k", "tk"⟩ =
      (⟨aerase "k" sW.memories, sW.stg, sW.ctr⟩, []) ∧
    handleUpdate envPlain sW ⟨"k", "tk", [7]⟩ =
      (⟨aerase "k" sW.memories, (storeDatum envPlain sW.stg "k" [7]).2, sW.ctr⟩,
       some (storeDatum envPlain sW.stg "k" [7]).1, []) ∧
    (getDatum envPlain sW.stg sW.ctr "k" true).1.token = freshToken sW.ctr :=
  ⟨(checkin_serves_waiters_fifo envPlain sW2 "k"
      ⟨MemState.newMemory, "tk", [wreq]⟩ (by decide)).1 wreq [] rfl,
   (checkin_serves_waiters_fifo envPlain sW "k" memNew (by decide)).2.1 rfl,
   (checkin_serves_waiters_fifo envPlain sW "k" memNew (by decide)).2.2.2.1 [7] rfl,
   (checkin_serves_waiters_fifo envPlain sW "k" memNew (by decide)).2.2.2.2 "k"
     rfl rfl (by decide)⟩

/-- C1: while a key is exclusively locked (record state not `available`),
a second exclusive checkout is enqueued as a waiter and receives no
reply; it is served (receives its reply) as soon as the holder issues a
matching CheckIn or Update, and, if the holder does nothing, after two
aging ticks (first tick `newMemory → seen` with no reply, second tick
serves the waiter) — so at most one caller at a time is granted a lock
token. -/
theorem exclusive_checkout_blocks_until_release (env : CryptoEnv)
    (stg : Storage) (ctr : Nat) (k tok : String) (st0 : MemState)
    (req : checkOutRequest) (hk : req.key = k) (hrw : req.rw = true)
    (hst : st0 ≠ MemState.available) :
    handleCheckOut env ⟨[(k, ⟨st0, tok, []⟩)], stg, ctr⟩ req =
      (⟨[(k, ⟨st0, tok, [req]⟩)], stg, ctr⟩, []) ∧
    (handleCheckIn env ⟨[(k, ⟨st0, tok, [req]⟩)], stg, ctr⟩ ⟨k, tok⟩).2.map
        Prod.fst = [req.reqId] ∧
    (∀ datum,
      (handleUpdate env ⟨[(k, ⟨st0, tok, [req]⟩)], stg, ctr⟩
          ⟨k, tok, datum⟩).2.2.map Prod.fst = [req.reqId]) ∧
    (st0 = MemState.newMemory →
      (processTick env ⟨[(k, ⟨st0, tok, [req]⟩)], stg, ctr⟩).2 = [] ∧
      (processTick env
          (processTick env ⟨[(k, ⟨st0, tok, [req]⟩)], stg, ctr⟩).1).2.map
        Prod.fst = [req.reqId]) := by
  subst hk
  refine ⟨?_, ?_, ?_, ?_⟩
  · simp [handleCheckOut, alookup, ainsert, hrw, hst]
  · simp [handleCheckIn, alookup, ainsert, replyToWaiter]
  · intro datum
    simp [handleUpdate, alookup, ainsert, replyToWaiter]
  · intro h0
    subst h0
    refine ⟨?_, ?_⟩
    · simp [processTick, tickMems, tickRecord]
    · simp [processTick, tickMems, tickRecord, replyToWaiter]

theorem exclusive_checkout_blocks_until_release_witness :
    handleCheckOut envPlain
        ⟨[("k", ⟨MemState.newMemory, "tk", []⟩)], stgW, 0⟩ ⟨7, "k", true⟩ =
      (⟨[("k", ⟨MemState.newMemory, "tk", [⟨7, "k", true⟩]⟩)], stgW, 0⟩, []) ∧
    (handleCheckIn envPlain
        ⟨[("k", ⟨MemState.newMemory, "tk", [⟨7, "k", true⟩]⟩)], stgW, 0⟩
        ⟨"k", "tk"⟩).2.map Prod.fst = [7] ∧
    (handleUpdate envPlain
        ⟨[("k", ⟨MemState.newMemory, "tk", [⟨7, "k", true⟩]⟩)], stgW, 0⟩
        ⟨"k", "tk", [9]⟩).2.2.map Prod.fst = [7] ∧
    (processTick envPlain
        ⟨[("k", ⟨MemState.newMemory, "tk", [⟨7, "k", true⟩]⟩)], stgW, 0⟩).2 = [] ∧
    (processTick envPlain
        (processTick envPlain
          ⟨[("k", ⟨MemState.newMemory, "tk", [⟨7, "k", true⟩]⟩)], stgW,
            0⟩).1).2.map Prod.fst = [7] := by
  have h := exclusive_checkout_blocks_until_release envPlain stgW 0 "k" "tk"
    MemState.newMemory ⟨7, "k", true⟩ rfl rfl (by decide)
  exact ⟨h.1, h.2.1, h.2.2.1 [9], (h.2.2.2 rfl).1, (h.2.2.2 rfl).2⟩

/-- C8: `Remember` overwrites the entry for its (key, user, channel)
triple unconditionally with the given value and a fresh timestamp;
`Recall` returns the most recently remembered value for the triple, or ""
when no entry exists; the periodic sweep deletes exactly the entries
strictly older than 7 minutes, and an entry at most 7 minutes old
survives the sweep with `Recall` unchanged. -/
theorem short_term_memory_lifecycle (stm : STMem) (now : Nat)
    (key user channel value : String) :
    alookup (⟨key, user, channel⟩ : memoryContext)
        (remember stm now key user channel value) = some ⟨value, now⟩ ∧
    recallMemory (remember stm now key user channel value) key user channel
      = value ∧
    (alookup (⟨key, user, channel⟩ : memoryContext) stm = none →
      recallMemory stm key user channel = "") ∧
    (∀ e : memoryContext × shortTermMemory,
      e ∈ sweep stm now ↔ e ∈ stm ∧ now - e.2.timestamp ≤ shortTermDuration) ∧
    (∀ mem : shortTermMemory,
      alookup (⟨key, user, channel⟩ : memoryContext) stm = some mem →
      now - mem.timestamp ≤ shortTermDuration →
      recallMemory (sweep stm now) key user channel =
        recallMemory stm key user channel) := by
  refine ⟨alookup_ainsert_self _ _ _, ?_, ?_, ?_, ?_⟩
  · simp [recallMemory, remember, alookup_ainsert_self]
  · intro h
    simp [recallMemory, h]
  · intro e
    simp [sweep, List.mem_filter, Nat.not_lt]
  · intro mem hl hage
    have hp : (fun kv : memoryContext × shortTermMemory =>
        !(decide (shortTermDuration < now - kv.2.timestamp)))
          (⟨key, user, channel⟩, mem) = true := by
      simpa [Nat.not_lt] using hage
    have h2 := alookup_filter (fun kv : memoryContext × shortTermMemory =>
      !(decide (shortTermDuration < now - kv.2.timestamp))) _ _ _ hl hp
    simp [recallMemory, sweep, h2, hl]

theorem short_term_memory_lifecycle_witness :
    alookup ctxW (remember stmW 100 "ka" "u" "ch" "vnew") =
      some ⟨"vnew", 100⟩ ∧
    recallMemory (remember stmW 100 "ka" "u" "ch" "vnew") "ka" "u" "ch"
      = "vnew" ∧
    recallMemory ([] : STMem) "kb" "u" "ch" = "" ∧
    ((ctxW, (⟨"v0", 10⟩ : shortTermMemory)) ∈ sweep stmW 100 ↔
      (ctxW, (⟨"v0", 10⟩ : shortTermMemory)) ∈ stmW ∧
        100 - 10 ≤ shortTermDuration) ∧
    recallMemory (sweep stmW 100) "ka" "u" "ch" =
      recallMemory stmW "ka" "u" "ch" := by
  have hA := short_term_memory_lifecycle stmW 100 "ka" "u" "ch" "vnew"
  have hB := short_term_memory_lifecycle ([] : STMem) 100 "kb" "u" "ch" "x"
  exact ⟨hA.1, hA.2.1, hB.2.2.1 rfl, hA.2.2.2.1 (ctxW, ⟨"v0", 10⟩),
    hA.2.2.2.2 ⟨"v0", 10⟩ (by decide) (by decide)⟩

/-- C7 counterexample: `Robot.CheckinDatum` on a key containing the
reserved separator sends nothing to the coordinator but also reports no
invalid-key error — it has no return value and does not even log — so the
claim that each of the three facade operations "rejects it with an
invalid-key error" is false for `CheckinDatum`. -/
theorem checkin_invalid_key_reports_no_error :
    robotCheckinDatum "ns" "" "bad:key" "deadbeef" = ⟨none, none⟩ ∧
    (⟨none, none⟩ : FacadeOut checkInRequest) ≠
      ⟨none, some RetVal.InvalidDatumKey⟩ := by
  exact ⟨by decide, by decide⟩

/-- C7 (amended): a caller key containing the reserved separator is
rejected before reaching the coordinator by all three facade operations;
`CheckoutDatum` and `UpdateDatum` report the invalid-key error while
`CheckinDatum` returns silently (it has no error channel); on a
separator-free key each operation forwards the key prefixed with the
task namespace and, when set, the pipeline namespace extension. -/
theorem facade_key_validation (ns ext key lt : String) (rw : Bool)
    (datum : Blob) :
    (containsColon key = true →
      robotCheckoutDatum ns ext key rw = ⟨none, some RetVal.InvalidDatumKey⟩ ∧
      robotUpdateDatum ns ext key lt datum =
        ⟨none, some RetVal.InvalidDatumKey⟩ ∧
      robotCheckinDatum ns ext key lt = ⟨none, none⟩) ∧
    (containsColon key = false →
      robotCheckoutDatum ns ext key rw =
        ⟨some (nsKey ns ext key, rw), none⟩ ∧
      (lt ≠ "" → robotCheckinDatum ns ext key lt =
        ⟨some ⟨nsKey ns ext key, lt⟩, none⟩) ∧
      (lt ≠ "" → robotUpdateDatum ns ext key lt datum =
        ⟨some ⟨nsKey ns ext key, lt, datum⟩, none⟩)) := by
  constructor
  · intro h
    refine ⟨by simp [robotCheckoutDatum, h], by simp [robotUpdateDatum, h], ?_⟩
    by_cases hlt : lt = ""
    · simp [robotCheckinDatum, hlt]
    · simp [robotCheckinDatum, hlt, h]
  · intro h
    refine ⟨?_, ?_, ?_⟩
    · simp [robotCheckoutDatum, h, checkoutSend, keyMatches_nsKey]
    · intro hlt
      simp [robotCheckinDatum, hlt, h, checkinDatum]
    · intro hlt
      simp [robotUpdateDatum, h, update, hlt]

theorem facade_key_validation_witness :
    robotCheckoutDatum "ns" "ext" "a:b" true =
      ⟨none, some RetVal.InvalidDatumKey⟩ ∧
    robotUpdateDatum "ns" "ext" "a:b" "tok" [1] =
      ⟨none, some RetVal.InvalidDatumKey⟩ ∧
    robotCheckinDatum "ns" "ext" "a:b" "tok" = ⟨none, none⟩ ∧
    robotCheckoutDatum "ns" "ext" "good" true =
      ⟨some (nsKey "ns" "ext" "good", true), none⟩ ∧
    robotCheckinDatum "ns" "ext" "good" "tok" =
      ⟨some ⟨nsKey "ns" "ext" "good", "tok"⟩, none⟩ ∧
    robotUpdateDatum "ns" "ext" "good" "tok" [1] =
      ⟨some ⟨nsKey "ns" "ext" "good", "tok", [1]⟩, none⟩ := by
  have hA := (facade_key_validation "ns" "ext" "a:b" "tok" true [1]).1
    (by decide)
  have hB := (facade_key_validation "ns" "ext" "good" "tok" true [1]).2
    (by decide)
  exact ⟨hA.1, hA.2.1, hA.2.2, hB.1, hB.2.1 (by decide), hB.2.2 (by decide)⟩

/-- C9 counterexample: with encryption initialized, retrieving a blob
whose decrypt fails already calls the provider `Store` during the
retrieve itself — the store log is non-empty and storage holds the
re-encrypted blob immediately, with no intervening caller store — so the
re-encryption does not wait for "the next store". -/
theorem decrypt_failure_reencrypts_during_retrieve :
    (getDatum envReencrypt ⟨[("k", [5])], []⟩ 0 "k" true).1.ret =
      RetVal.Ok ∧
    (getDatum envReencrypt ⟨[("k", [5])], []⟩ 0 "k" true).1.databytes =
      some [5] ∧
    (getDatum envReencrypt ⟨[("k", [5])], []⟩ 0 "k" true).2.1.storeLog =
      [("k", [0, 5])] ∧
    alookup "k" (getDatum envReencrypt ⟨[("k", [5])], []⟩ 0 "k" true).2.1.data
      = some [0, 5] ∧
    ([0, 5] : Blob) ≠ [5] := by
  decide

/-- C9 (amended): with encryption initialized, a retrieve of a datum
whose stored blob fails authenticated decryption does not fail: the raw
stored bytes are returned as the plaintext value with status `Ok`, and
the blob is immediately re-encrypted and written back to storage during
the retrieve itself (rather than on the next store). -/
theorem decrypt_failure_returns_plaintext (env : CryptoEnv) (stg : Storage)
    (ctr : Nat) (dkey : String) (rw : Bool) (db : Blob)
    (hb : env.hasBrain = true) (he : env.encryptBrain = true)
    (hi : env.initialized = true) (hg : env.initializing = false)
    (hk : keyMatches dkey = true) (hdb : alookup dkey stg.data = some db)
    (hfail : env.decrypt db = none) :
    getDatum env stg ctr dkey rw =
      (⟨if rw then freshToken ctr else "", some db, true, RetVal.Ok⟩,
       (storeDatum env stg dkey db).2, if rw then ctr + 1 else ctr) ∧
    ∀ eb, env.encrypt db = some eb →
      (storeDatum env stg dkey db).2 =
        ⟨ainsert dkey eb stg.data, (dkey, eb) :: stg.storeLog⟩ := by
  constructor
  · simp [getDatum, hk, hb, he, hg, hi, hdb, hfail]
  · intro eb henc
    simp [storeDatum, hb, he, hi, henc]

theorem decrypt_failure_returns_plaintext_witness :
    getDatum envReencrypt ⟨[("k", [5])], []⟩ 0 "k" true =
      (⟨freshToken 0, some [5], true, RetVal.Ok⟩,
       (storeDatum envReencrypt ⟨[("k", [5])], []⟩ "k" [5]).2, 1) ∧
    (storeDatum envReencrypt ⟨[("k", [5])], []⟩ "k" [5]).2 =
      ⟨ainsert "k" [0, 5] [("k", [5])], [("k", [0, 5])]⟩ := by
  have h := decrypt_failure_returns_plaintext envReencrypt
    ⟨[("k", [5])], []⟩ 0 "k" true [5] rfl rfl rfl rfl (by decide)
    (by decide) (by decide)
  exact ⟨h.1, h.2 [0, 5] (by decide)⟩

end Gopherbot
